import Mathlib

/-!
Verification of the spreadsheet engine in `src/macros/excel/work_exel.py`.

Modelling conventions:
* a Python string is a list of Unicode code points (`PyStr`);
* `str.strip()` is `pyStrip`; `str.lower()` and `str.casefold()` are the
  per-character lowering map `pyLower` (the repertoire the program
  manipulates is ASCII plus Cyrillic, where the two agree and fold one
  character to one character);
* a spreadsheet cell is `Cell := Option PyStr`: `none` is Python `None`,
  `some s` carries the `str()` image of the stored value (for a value
  that is already a string, `str` is the identity);
* a worksheet is a `List (List Cell)` of its rows in order; the file /
  workbook adapters are I/O plumbing outside the model, so the engine
  operations take the row list directly;
* Python exceptions become `Except` results, with one constructor per
  error of the spec's taxonomy.
-/

/-- Code points of a Lean string literal, used to write the Python string
constants of the source. -/
def pyOfString (s : String) : List Nat := s.toList.map Char.toNat

/-- A Python string, as its list of Unicode code points. -/
abbrev PyStr := List Nat

/-- Whitespace code points removed by Python `str.strip()`. -/
def isWS (c : Nat) : Bool :=
  c == 32 || c == 9 || c == 10 || c == 13 || c == 11 || c == 12

/-- Per-character case folding: ASCII `A..Z`, Cyrillic `А..Я` and `Ё` map to
their lowercase forms, every other code point is unchanged.  This is
`str.casefold()` (and `str.lower()`) on the program's repertoire. -/
def lowerChar (c : Nat) : Nat :=
  if 65 ≤ c ∧ c ≤ 90 then c + 32
  else if 1040 ≤ c ∧ c ≤ 1071 then c + 32
  else if c = 1025 then 1105
  else c

/-- Python `str.lower()` / `str.casefold()`: fold every character. -/
def pyLower (s : PyStr) : PyStr := s.map lowerChar

/-- Python `str.strip()`: drop leading and trailing whitespace. -/
def pyStrip (s : PyStr) : PyStr := List.rdropWhile isWS (s.dropWhile isWS)

/-- A cell value: `none` is Python `None`, `some s` the string form of the
cell's content. -/
abbrev Cell := Option PyStr

/-- Decidable equality of results, so concrete runs of the engine can be
checked by evaluation. -/
instance exceptDecidableEq {ε α : Type} [DecidableEq ε] [DecidableEq α] :
    DecidableEq (Except ε α) := fun x y =>
  match x, y with
  | .ok a, .ok b =>
    if h : a = b then .isTrue (by rw [h]) else .isFalse (by simp [h])
  | .error e, .error f =>
    if h : e = f then .isTrue (by rw [h]) else .isFalse (by simp [h])
  | .ok _, .error _ => .isFalse (by simp)
  | .error _, .ok _ => .isFalse (by simp)

/-- Translation of `norm_text` (work_exel.py):
`return "" if value is None else str(value).strip()`. -/
def norm_text : Cell → PyStr
  | none => []
  | some s => pyStrip s

/-- Translation of `casefold_text` (work_exel.py):
`return norm_text(value).casefold()`. -/
def casefold_text (v : Cell) : PyStr := pyLower (norm_text v)

/-- Translation of the module constant `colums_head` (work_exel.py):
`["ФИО", "Должность", "Отдел", "Дата найма", "Зарплата"]`. -/
def colums_head : List PyStr :=
  [pyOfString "ФИО", pyOfString "Должность", pyOfString "Отдел",
   pyOfString "Дата найма", pyOfString "Зарплата"]

/-- The two reading backends returned by `get_excel_format`. -/
inductive Backend
  | xlrd
  | openpyxl
  deriving DecidableEq, Repr

/-- Error of the format dispatcher: `ValueError("Неподдерживаемый формат
файла: ...")`, carrying the offending (lowercased) extension. -/
inductive FormatError
  | unsupportedFormat (ext : PyStr)
  deriving DecidableEq, Repr

/-- Translation of `get_excel_format` (work_exel.py).  The Python function
reads `path.suffix`; the model takes that suffix directly, because the
classification uses nothing else of the path. -/
def get_excel_format (suffix : PyStr) : Except FormatError Backend :=
  let format_exel := pyLower suffix
  if format_exel = pyOfString ".xls" then .ok .xlrd
  else if format_exel = pyOfString ".xlsx" ∨ format_exel = pyOfString ".xlsm" then
    .ok .openpyxl
  else .error (.unsupportedFormat format_exel)

/-- Translation of `map_columns_to_indexes` (work_exel.py):
`{name: idx for idx, name in enumerate(headers) if name}` as an
association list of the insertions in order. -/
def map_columns_to_indexes (headers : List PyStr) : List (PyStr × Nat) :=
  (headers.enum.filter (fun p => !p.2.isEmpty)).map (fun p => (p.2, p.1))

/-- Lookup in a Python dict represented as its insertion list: the value of
the LAST binding of the key wins, as later dict insertions overwrite
earlier ones. -/
def dictLookup (d : List (PyStr × Nat)) (k : PyStr) : Option Nat :=
  (d.reverse.find? (fun p => p.1 = k)).map Prod.snd

/-- Translation of `required_norm` inside `find_header_row_from_rows`:
`{casefold_text(column_name) for column_name in colums_head}`, kept as the
list of its elements (they are pairwise distinct, see
`required_norm_nodup`). -/
def required_norm : List PyStr := colums_head.map (fun n => casefold_text (some n))

/-- Size of the Python set `required_norm` (`len(required_norm)`): the
number of distinct elements. -/
def required_card : Nat := required_norm.dedup.length

/-- Translation of `header_norm` for one candidate row:
`{casefold_text(header) for header in headers if header}`, as a list. -/
def header_norm (headers : List PyStr) : List PyStr :=
  (headers.filter (fun h => !h.isEmpty)).map (fun h => casefold_text (some h))

/-- The row's score in `find_header_row_from_rows`:
`len(required_norm.intersection(header_norm))`.  Because the elements of
`required_norm` are pairwise distinct, the size of the set intersection is
the number of required names occurring in `header_norm`. -/
def header_score (headers : List PyStr) : Nat :=
  (required_norm.filter (fun c => decide (c ∈ header_norm headers))).length

/-- The scanning loop of `find_header_row_from_rows`: walks the remaining
rows carrying the 1-based number of the next row, the best row seen
(number and headers) and its score (`-1` before any row is seen).  A row
numbered beyond `scan_rows` stops the scan; a perfect score returns
immediately. -/
def find_header_loop (scan_rows : Nat) :
    List (List Cell) → Nat → (Nat × List PyStr) → Int → Nat × List PyStr
  | [], _, best, _ => best
  | row_values :: rest, row_number, best, best_score =>
    if row_number > scan_rows then best
    else
      let headers := row_values.map norm_text
      let score : Int := (header_score headers : Nat)
      let best' := if score > best_score then (row_number, headers) else best
      let best_score' := if score > best_score then score else best_score
      if score = (required_card : Nat) then (row_number, headers)
      else find_header_loop scan_rows rest (row_number + 1) best' best_score'

/-- Translation of `find_header_row_from_rows` (work_exel.py): scan at most
`scan_rows` rows, return immediately on a perfect score, otherwise the
best-scoring row (strict `>` to update, so the earliest best wins),
defaulting to row 1 with an empty header list. -/
def find_header_row_from_rows (rows : List (List Cell)) (scan_rows : Nat := 50) :
    Nat × List PyStr :=
  find_header_loop scan_rows rows 1 (1, []) (-1)

/-- Trimmed headers of row `i` (0-based) of a row list, `[]` out of range. -/
def rowHeaders (rows : List (List Cell)) (i : Nat) : List PyStr :=
  (rows.getD i []).map norm_text

/-- The detector's score of row `i` (0-based) of a row list. -/
def rowScore (rows : List (List Cell)) (i : Nat) : Nat :=
  header_score (rowHeaders rows i)

/-- Errors of column validation: `ValueError("Колонка для фильтра не
найдена: ...")` and `ValueError("В исходном файле отсутствуют колонки:
...")`, in the spec's taxonomy `ColumnNotFound` and
`MissingRequiredColumns`. -/
inductive ColError
  | columnNotFound (name : PyStr)
  | missingRequiredColumns (names : List PyStr)
  deriving DecidableEq, Repr

namespace ExcelService

/-- Translation of `ExcelService.validate_columns` (work_exel.py): first the
filter column is looked up, then the list of the required output columns
missing from the map is built and rejected when non-empty. -/
def validate_columns (column_to_index : List (PyStr × Nat)) (filter_column : PyStr) :
    Except ColError Unit :=
  if (dictLookup column_to_index filter_column).isNone then
    .error (.columnNotFound filter_column)
  else
    let missing_columns := colums_head.filter (fun col => (dictLookup column_to_index col).isNone)
    if !missing_columns.isEmpty then .error (.missingRequiredColumns missing_columns)
    else .ok ()

/-- The header detection every reading operation performs first: run the
detector over the first 50 worksheet rows (`iter_rows(min_row=1,
max_row=50)`) with the default `scan_rows = 50`. -/
def detected_header (sheet : List (List Cell)) : Nat × List PyStr :=
  find_header_row_from_rows (sheet.take 50) 50

/-- The column index map every reading operation builds:
`headers = [norm_text(h) for h in raw_headers]` followed by
`map_columns_to_indexes(headers)`. -/
def sheet_column_map (sheet : List (List Cell)) : List (PyStr × Nat) :=
  map_columns_to_indexes ((detected_header sheet).2.map (fun h => norm_text (some h)))

/-- Python `row_values[i] if i < len(row_values) else None`. -/
def cellAt (row : List Cell) (i : Nat) : Cell := row.getD i none

/-- The output-column indices of `filter_rows`:
`[column_to_index[col] for col in colums_head]`.  The default `0` of the
lookup is never used on the paths where this runs, because
`validate_columns` has already established that every required column is
present. -/
def keep_indices (column_to_index : List (PyStr × Nat)) : List Nat :=
  colums_head.map (fun col => (dictLookup column_to_index col).getD 0)

/-- The row loop of `ExcelService.filter_rows`: keep each data row whose
filter-column cell case-folds to the target key, projected onto the kept
column indices with `None` for indices beyond the row. -/
def filter_loop (filter_col_index : Nat) (target_value_key : PyStr)
    (keep_col_indices : List Nat) : List (List Cell) → List (List Cell)
  | [] => []
  | row_values :: rest =>
    let cell_value := cellAt row_values filter_col_index
    if casefold_text cell_value ≠ target_value_key then
      filter_loop filter_col_index target_value_key keep_col_indices rest
    else
      (keep_col_indices.map (fun index =>
          if index < row_values.length then row_values.getD index none else none)) ::
        filter_loop filter_col_index target_value_key keep_col_indices rest

/-- Translation of `ExcelService.filter_rows` (work_exel.py), openpyxl
branch (the xlrd branch performs the same row logic through the cell
decoder): detect the header row in the first 50 rows, validate the
columns, then scan every row after the header row. -/
def filter_rows (sheet : List (List Cell)) (filter_column : PyStr)
    (filter_value : PyStr) : Except ColError (List PyStr × List (List Cell)) :=
  let target_value_key := casefold_text (some filter_value)
  let header_row_number := (detected_header sheet).1
  let column_to_index := sheet_column_map sheet
  match validate_columns column_to_index filter_column with
  | .error e => .error e
  | .ok _ =>
    let filter_col_index := (dictLookup column_to_index filter_column).getD 0
    let keep_col_indices := keep_indices column_to_index
    .ok (colums_head,
      filter_loop filter_col_index target_value_key keep_col_indices
        (sheet.drop header_row_number))

/-- The row loop of `ExcelService.get_unique_values`: skip rows not reaching
the target column, skip blank values, skip case-insensitively seen values;
otherwise emit the value and stop once the emitted count reaches `limit`
(the count is checked only AFTER appending, exactly as in the source). -/
def unique_loop (target_col_index limit : Nat) :
    List PyStr → Nat → List (List Cell) → List PyStr
  | _, _, [] => []
  | seen, count, row_values :: rest =>
    if row_values.length ≤ target_col_index then
      unique_loop target_col_index limit seen count rest
    else
      let value_text := norm_text (cellAt row_values target_col_index)
      if value_text.isEmpty then unique_loop target_col_index limit seen count rest
      else
        let value_key := pyLower value_text
        if value_key ∈ seen then unique_loop target_col_index limit seen count rest
        else if limit ≤ count + 1 then [value_text]
        else value_text :: unique_loop target_col_index limit (value_key :: seen) (count + 1) rest

/-- Translation of `ExcelService.get_unique_values` (work_exel.py, openpyxl
branch; the xlrd branch performs the same logic through the cell decoder):
detect the header row, look the column up, then collect distinct non-blank
values from the rows after the header row. -/
def get_unique_values (sheet : List (List Cell)) (column_name : PyStr)
    (limit : Nat := 500) : Except ColError (List PyStr) :=
  let header_row_num := (detected_header sheet).1
  let column_to_index := sheet_column_map sheet
  match dictLookup column_to_index column_name with
  | none => .error (.columnNotFound column_name)
  | some target_col_index =>
    .ok (unique_loop target_col_index limit [] 0 (sheet.drop header_row_num))

/-- Error of the output writer: `ValueError("Файл результата должен быть
.xlsx")`, the spec's `InvalidOutputFormat`. -/
inductive SaveError
  | invalidOutputFormat
  deriving DecidableEq, Repr

/-- The workbook `save_xlsx` persists: one sheet with a title and its rows
in append order. -/
structure SavedWorkbook where
  title : PyStr
  sheetRows : List (List Cell)
  deriving DecidableEq, Repr

/-- Translation of `ExcelService.save_xlsx` (work_exel.py): reject any
output suffix other than `.xlsx` (lowercased) before a workbook exists,
otherwise build a fresh single-sheet workbook holding the header row
followed by the data rows.  The model returns the workbook that
`output_workbook.save` writes to disk. -/
def save_xlsx (output_suffix : PyStr) (headers : List PyStr)
    (rows : List (List Cell)) : Except SaveError SavedWorkbook :=
  if pyLower output_suffix ≠ pyOfString ".xlsx" then .error .invalidOutputFormat
  else
    .ok { title := pyOfString "Отфильтрованно"
          sheetRows := (headers.map (fun h => (some h : Cell))) :: rows }

/-- Non-absent column values, in row order, of the data rows that reach the
target column — the stream the unique-values loop draws from. -/
def column_values (target_col_index : Nat) (rows : List (List Cell)) : List PyStr :=
  rows.filterMap (fun row =>
    if target_col_index < row.length then
      some (norm_text (cellAt row target_col_index))
    else none)

end ExcelService

/-- Spec reading of the filter predicate of claim C2: a data row is kept iff
the case-folded trimmed string of its filter-column cell equals the
case-folded trimmed filter value (whole-value equality). -/
def specRowMatches (filter_value : PyStr) (filter_col_index : Nat)
    (row : List Cell) : Bool :=
  casefold_text (ExcelService.cellAt row filter_col_index) =
    pyLower (pyStrip filter_value)

/-- Spec reading of the projection of claim C2: the row restricted to the
kept column indices in their fixed order, with an absent value substituted
at any index beyond the row's length. -/
def specProjectRow (keep_col_indices : List Nat) (row : List Cell) : List Cell :=
  keep_col_indices.map (fun index => if index < row.length then row.getD index none else none)

/-- The relation "equal up to case and surrounding whitespace": after
removing surrounding whitespace the two strings agree character by
character up to case. -/
def eqUpToCaseAndWs (a b : PyStr) : Prop :=
  List.Forall₂ (fun c d => lowerChar c = lowerChar d) (pyStrip a) (pyStrip b)

/-! Basic lemmas about the string model. -/

theorem required_norm_nodup : required_norm.Nodup := by decide

theorem required_card_eq : required_card = required_norm.length := by decide

theorem rowHeaders_zero (r : List Cell) (rest : List (List Cell)) :
    rowHeaders (r :: rest) 0 = r.map norm_text := rfl

theorem rowHeaders_succ (r : List Cell) (rest : List (List Cell)) (i : Nat) :
    rowHeaders (r :: rest) (i + 1) = rowHeaders rest i := rfl

theorem rowScore_zero (r : List Cell) (rest : List (List Cell)) :
    rowScore (r :: rest) 0 = header_score (r.map norm_text) := rfl

theorem rowScore_succ (r : List Cell) (rest : List (List Cell)) (i : Nat) :
    rowScore (r :: rest) (i + 1) = rowScore rest i := rfl

theorem header_score_eq_card_iff (headers : List PyStr) :
    header_score headers = required_card ↔
      ∀ c ∈ required_norm, c ∈ header_norm headers := by
  rw [required_card_eq]
  unfold header_score
  constructor
  · intro h c hc
    have hs : required_norm.filter (fun c => decide (c ∈ header_norm headers)) =
        required_norm := (List.filter_sublist _).eq_of_length h
    exact of_decide_eq_true (List.filter_eq_self.mp hs c hc)
  · intro h
    rw [List.filter_eq_self.mpr (fun c hc => decide_eq_true (h c hc))]

/-! Lemmas about the header-detection loop. -/

theorem find_header_loop_keep (scan : Nat) :
    ∀ (rows : List (List Cell)) (rn : Nat) (best : Nat × List PyStr) (bs : Int),
      (∀ i, i < rows.length → rn + i ≤ scan →
        ((rowScore rows i : Int) ≤ bs ∧ rowScore rows i ≠ required_card)) →
      find_header_loop scan rows rn best bs = best := by
  intro rows
  induction rows with
  | nil => intro rn best bs _; rfl
  | cons r rest ih =>
    intro rn best bs h
    by_cases hrn : rn > scan
    · simp [find_header_loop, hrn]
    · have h0 := h 0 (by simp) (by omega)
      rw [rowScore_zero] at h0
      simp only [find_header_loop, if_neg hrn]
      rw [if_neg (by exact_mod_cast h0.2), if_neg (not_lt.mpr h0.1),
        if_neg (not_lt.mpr h0.1)]
      exact ih (rn + 1) best bs fun i hi hs => by
        have := h (i + 1) (by simpa using hi) (by omega)
        rwa [rowScore_succ] at this

theorem find_header_loop_perfect (scan : Nat) :
    ∀ (rows : List (List Cell)) (rn : Nat) (best : Nat × List PyStr) (bs : Int) (j : Nat),
      j < rows.length → rn + j ≤ scan →
      rowScore rows j = required_card →
      (∀ i, i < j → rowScore rows i ≠ required_card) →
      find_header_loop scan rows rn best bs = (rn + j, rowHeaders rows j) := by
  intro rows
  induction rows with
  | nil => intro rn best bs j hj; simp at hj
  | cons r rest ih =>
    intro rn best bs j hj hjs hperf hfirst
    have hrn : ¬ rn > scan := by omega
    rcases j with _ | k
    · rw [rowScore_zero] at hperf
      simp only [find_header_loop, if_neg hrn]
      rw [if_pos (by exact_mod_cast hperf)]
      simp [rowHeaders_zero]
    · have h0 : header_score (r.map norm_text) ≠ required_card := by
        have := hfirst 0 (Nat.succ_pos k)
        rwa [rowScore_zero] at this
      simp only [find_header_loop, if_neg hrn]
      rw [if_neg (by exact_mod_cast h0)]
      have hrec := ih (rn + 1)
        (if ((header_score (r.map norm_text) : Nat) : Int) > bs
          then (rn, r.map norm_text) else best)
        (if ((header_score (r.map norm_text) : Nat) : Int) > bs
          then ((header_score (r.map norm_text) : Nat) : Int) else bs)
        k (by simpa using hj) (by omega)
        (by rw [← rowScore_succ r]; exact hperf)
        (fun i hi => by rw [← rowScore_succ r]; exact hfirst (i + 1) (by omega))
      rw [hrec, rowHeaders_succ]
      have : rn + 1 + k = rn + (k + 1) := by omega
      rw [this]

theorem find_header_loop_best (scan : Nat) :
    ∀ (rows : List (List Cell)) (rn : Nat) (best : Nat × List PyStr) (bs : Int) (j : Nat),
      j < rows.length → rn + j ≤ scan →
      (∀ i, i < rows.length → rn + i ≤ scan → rowScore rows i ≠ required_card) →
      (∀ i, i < rows.length → rn + i ≤ scan → rowScore rows i ≤ rowScore rows j) →
      (∀ i, i < j → rowScore rows i < rowScore rows j) →
      bs < (rowScore rows j : Int) →
      find_header_loop scan rows rn best bs = (rn + j, rowHeaders rows j) := by
  intro rows
  induction rows with
  | nil => intro rn best bs j hj; simp at hj
  | cons r rest ih =>
    intro rn best bs j hj hjs hnp hmax hfirst hbs
    have hrn : ¬ rn > scan := by omega
    have h0np : header_score (r.map norm_text) ≠ required_card := by
      have := hnp 0 (by simp) (by omega)
      rwa [rowScore_zero] at this
    simp only [find_header_loop, if_neg hrn]
    rw [if_neg (by exact_mod_cast h0np)]
    rcases j with _ | k
    · rw [rowScore_zero] at hbs
      rw [if_pos (by exact_mod_cast hbs), if_pos (by exact_mod_cast hbs)]
      have hkeep := find_header_loop_keep scan rest (rn + 1)
        (rn, r.map norm_text) ((header_score (r.map norm_text) : Nat) : Int)
        (fun i hi hs => by
          constructor
          · have := hmax (i + 1) (by simpa using hi) (by omega)
            rw [rowScore_succ, rowScore_zero] at this
            exact_mod_cast this
          · have := hnp (i + 1) (by simpa using hi) (by omega)
            rwa [rowScore_succ] at this)
      rw [hkeep]
      simp [rowHeaders_zero]
    · have h0lt : rowScore (r :: rest) 0 < rowScore (r :: rest) (k + 1) :=
        hfirst 0 (Nat.succ_pos k)
      have hbs' :
          (if ((header_score (r.map norm_text) : Nat) : Int) > bs
            then ((header_score (r.map norm_text) : Nat) : Int) else bs) <
            (rowScore rest k : Int) := by
        rw [rowScore_zero] at h0lt
        rw [rowScore_succ] at h0lt hbs
        split_ifs
        · exact_mod_cast h0lt
        · exact hbs
      have hrec := ih (rn + 1)
        (if ((header_score (r.map norm_text) : Nat) : Int) > bs
          then (rn, r.map norm_text) else best)
        (if ((header_score (r.map norm_text) : Nat) : Int) > bs
          then ((header_score (r.map norm_text) : Nat) : Int) else bs)
        k (by simpa using hj) (by omega)
        (fun i hi hs => by
          rw [← rowScore_succ r]
          exact hnp (i + 1) (by simpa using hi) (by omega))
        (fun i hi hs => by
          rw [← rowScore_succ r rest i, ← rowScore_succ r rest k]
          exact hmax (i + 1) (by simpa using hi) (by omega))
        (fun i hi => by
          rw [← rowScore_succ r rest i, ← rowScore_succ r rest k]
          exact hfirst (i + 1) (by omega))
        hbs'
      rw [hrec, rowHeaders_succ]
      have : rn + 1 + k = rn + (k + 1) := by omega
      rw [this]

theorem isWS_true_iff (c : Nat) :
    isWS c = true ↔ c = 32 ∨ c = 9 ∨ c = 10 ∨ c = 13 ∨ c = 11 ∨ c = 12 := by
  simp only [isWS, Bool.or_eq_true, beq_iff_eq]
  tauto

theorem lowerChar_idem (c : Nat) : lowerChar (lowerChar c) = lowerChar c := by
  unfold lowerChar
  split_ifs <;> omega

theorem isWS_lowerChar (c : Nat) : isWS (lowerChar c) = isWS c := by
  rw [Bool.eq_iff_iff, isWS_true_iff, isWS_true_iff]
  unfold lowerChar
  split_ifs <;> omega

theorem pyLower_pyLower (s : PyStr) : pyLower (pyLower s) = pyLower s := by
  simp only [pyLower, List.map_map]
  exact List.map_congr_left fun c _ => lowerChar_idem c

theorem dropWhile_rdropWhile_dropWhile (s : List Nat) :
    ((s.dropWhile isWS).rdropWhile isWS).dropWhile isWS =
      (s.dropWhile isWS).rdropWhile isWS := by
  rcases hu : (s.dropWhile isWS).rdropWhile isWS with _ | ⟨b, u⟩
  · simp
  · have hpre := List.rdropWhile_prefix isWS (s.dropWhile isWS)
    rw [hu] at hpre
    obtain ⟨r, hr⟩ := hpre
    have hcons : s.dropWhile isWS = b :: (u ++ r) := by
      rw [← hr]
      simp
    have hidem := List.dropWhile_idempotent isWS s
    rw [hcons] at hidem
    have hb : isWS b = false := by
      by_contra hb
      rw [List.dropWhile_cons, if_pos (by simpa using hb)] at hidem
      have hle := (List.dropWhile_sublist (l := u ++ r) isWS).length_le
      rw [hidem] at hle
      simp at hle
    simp [List.dropWhile_cons, hb]

theorem pyStrip_idem (s : PyStr) : pyStrip (pyStrip s) = pyStrip s := by
  unfold pyStrip
  rw [dropWhile_rdropWhile_dropWhile]
  exact List.rdropWhile_idempotent _ _

theorem pyStrip_norm_text (v : Cell) : pyStrip (norm_text v) = norm_text v := by
  cases v
  · simp [norm_text, pyStrip, List.rdropWhile]
  · exact pyStrip_idem _

theorem isWS_comp_lowerChar : (isWS ∘ lowerChar) = isWS :=
  funext isWS_lowerChar

theorem dropWhile_pyLower (s : PyStr) :
    (pyLower s).dropWhile isWS = pyLower (s.dropWhile isWS) := by
  unfold pyLower
  rw [List.dropWhile_map, isWS_comp_lowerChar]

theorem rdropWhile_pyLower (s : PyStr) :
    (pyLower s).rdropWhile isWS = pyLower (s.rdropWhile isWS) := by
  unfold List.rdropWhile pyLower
  rw [← List.map_reverse, List.dropWhile_map, isWS_comp_lowerChar, ← List.map_reverse]

theorem pyStrip_pyLower (s : PyStr) : pyStrip (pyLower s) = pyLower (pyStrip s) := by
  unfold pyStrip
  rw [dropWhile_pyLower, rdropWhile_pyLower]

theorem map_eq_map_iff_forall2 {α β : Type} (f : α → β) :
    ∀ a b : List α, a.map f = b.map f ↔ List.Forall₂ (fun c d => f c = f d) a b := by
  intro a
  induction a with
  | nil => intro b; cases b <;> simp
  | cons c t ih => intro b; cases b <;> simp [ih]

set_option maxRecDepth 4000 in
/-- Counterexample to claim C1 as stated: a row sequence that does contain
a row whose case-folded non-empty trimmed values are a superset of the
five expected column names — but only at position 51, beyond the 50-row
scan cap — for which the detector does not return that row: it returns
row 1 with an empty header list.  The first conjunct checks the perfect
row at index 50, the second that no earlier row is perfect, the third and
fourth the actual and the claimed outputs. -/
theorem claim1_counterexample :
    (∀ c ∈ required_norm,
      c ∈ header_norm (rowHeaders (List.replicate 50 [] ++ [colums_head.map some]) 50)) ∧
    (∀ i, i < 50 → ¬ ∀ c ∈ required_norm,
      c ∈ header_norm (rowHeaders (List.replicate 50 [] ++ [colums_head.map some]) i)) ∧
    find_header_row_from_rows (List.replicate 50 [] ++ [colums_head.map some]) =
      (1, []) ∧
    (1, ([] : List PyStr)) ≠
      (51, rowHeaders (List.replicate 50 [] ++ [colums_head.map some]) 50) := by
  refine ⟨by decide, by decide, by decide, by decide⟩

/-- Claim C1, amended by the counterexample: for every row sequence whose
FIRST 50 ROWS contain a row whose case-folded non-empty trimmed values are
a superset of the five expected column names, the header detector with
`scan_rows = 50` returns the first such row, with its 1-based position and
its trimmed (non-case-folded) header strings. -/
theorem claim1_perfect_row (rows : List (List Cell)) (j : Nat)
    (hj : j < rows.length) (hj50 : j < 50)
    (hperf : ∀ c ∈ required_norm, c ∈ header_norm (rowHeaders rows j))
    (hfirst : ∀ i, i < j → ¬ ∀ c ∈ required_norm, c ∈ header_norm (rowHeaders rows i)) :
    find_header_row_from_rows rows = (j + 1, rowHeaders rows j) := by
  unfold find_header_row_from_rows
  have h := find_header_loop_perfect 50 rows 1 (1, []) (-1) j hj (by omega)
    ((header_score_eq_card_iff _).mpr hperf)
    (fun i hi hc => hfirst i hi ((header_score_eq_card_iff _).mp hc))
  rw [h]
  have : 1 + j = j + 1 := by omega
  rw [this]

/-- Witness for claim C1 (amended): a sheet whose second row holds exactly
the expected column names is detected as the header row, at position 2,
with the trimmed labels. -/
theorem claim1_witness :
    find_header_row_from_rows [[some (pyOfString "отчёт")], colums_head.map some] =
      (2, colums_head) := by
  have h := claim1_perfect_row [[some (pyOfString "отчёт")], colums_head.map some] 1
    (by decide) (by decide) (by decide)
    (fun i hi => by interval_cases i <;> decide)
  rw [h]
  decide

/-- Claim C4: when no row among the first 50 achieves a perfect score, the
detector returns the earliest row of maximal overlap score (a strictly
greater score is needed to displace the current best), and on an empty row
sequence it returns position 1 with an empty header list. -/
theorem claim4_best_row (rows : List (List Cell)) :
    (rows = [] → find_header_row_from_rows rows = (1, [])) ∧
    (∀ j, j < rows.length → j < 50 →
      (∀ i, i < rows.length → i < 50 → rowScore rows i ≠ required_card) →
      (∀ i, i < rows.length → i < 50 → rowScore rows i ≤ rowScore rows j) →
      (∀ i, i < j → rowScore rows i < rowScore rows j) →
      find_header_row_from_rows rows = (j + 1, rowHeaders rows j)) := by
  constructor
  · intro h
    rw [h]
    rfl
  · intro j hj hj50 hnp hmax hfirst
    unfold find_header_row_from_rows
    have h := find_header_loop_best 50 rows 1 (1, []) (-1) j hj (by omega)
      (fun i hi hs => hnp i hi (by omega))
      (fun i hi hs => hmax i hi (by omega))
      hfirst
      (by have : (0 : Int) ≤ (rowScore rows j : Int) := Int.ofNat_nonneg _; omega)
    rw [h]
    have : 1 + j = j + 1 := by omega
    rw [this]

/-- Witness for claim C4: on a two-row sheet with scores 1 and 2 and no
perfect row, the detector returns the second row; and the empty sheet
gives position 1 with no headers. -/
theorem claim4_witness :
    find_header_row_from_rows
      [[some (pyOfString "ФИО")],
       [some (pyOfString "ФИО"), some (pyOfString "Отдел")]] =
      (2, [pyOfString "ФИО", pyOfString "Отдел"]) ∧
    find_header_row_from_rows [] = (1, []) := by
  constructor
  · have h := (claim4_best_row
      [[some (pyOfString "ФИО")],
       [some (pyOfString "ФИО"), some (pyOfString "Отдел")]]).2 1
      (by decide) (by decide)
      (fun i hi _ => by interval_cases i <;> decide)
      (fun i hi _ => by interval_cases i <;> decide)
      (fun i hi => by interval_cases i <;> decide)
    rw [h]
    decide
  · exact (claim4_best_row []).1 rfl

/-! Lemmas about the filtering machinery. -/

theorem casefold_text_some (s : PyStr) :
    casefold_text (some s) = pyLower (pyStrip s) := rfl

theorem specProjectRow_length (keep : List Nat) (row : List Cell) :
    (specProjectRow keep row).length = keep.length := by
  simp [specProjectRow]

theorem keep_indices_length (m : List (PyStr × Nat)) :
    (ExcelService.keep_indices m).length = colums_head.length := by
  simp [ExcelService.keep_indices]

theorem filter_loop_eq (fidx : Nat) (fv : PyStr) (keep : List Nat) :
    ∀ rows : List (List Cell),
      ExcelService.filter_loop fidx (pyLower (pyStrip fv)) keep rows =
        (rows.filter (specRowMatches fv fidx)).map (specProjectRow keep) := by
  intro rows
  induction rows with
  | nil => rfl
  | cons row rest ih =>
    by_cases h : casefold_text (ExcelService.cellAt row fidx) = pyLower (pyStrip fv)
    · simp [ExcelService.filter_loop, h, List.filter_cons, specRowMatches,
        specProjectRow, ih]
    · simp [ExcelService.filter_loop, h, List.filter_cons, specRowMatches, ih]

/-- Core of claims C2 and C10: when validation succeeds and the filter
column maps to `fidx`, `filter_rows` returns the fixed header list
together with the data rows matching the filter, in order, each projected
onto the kept columns. -/
theorem filter_rows_spec (sheet : List (List Cell)) (filter_column filter_value : PyStr)
    (fidx : Nat)
    (hok : ExcelService.validate_columns (ExcelService.sheet_column_map sheet)
      filter_column = .ok ())
    (hf : dictLookup (ExcelService.sheet_column_map sheet) filter_column = some fidx) :
    ExcelService.filter_rows sheet filter_column filter_value =
      .ok (colums_head,
        ((sheet.drop (ExcelService.detected_header sheet).1).filter
            (specRowMatches filter_value fidx)).map
          (specProjectRow (ExcelService.keep_indices
            (ExcelService.sheet_column_map sheet)))) := by
  simp only [ExcelService.filter_rows, hok, hf, Option.getD_some]
  rw [casefold_text_some, filter_loop_eq]

/-- Claim C2: under successful column validation, `filter_rows` keeps
exactly the data rows whose case-folded trimmed filter-column cell equals
the case-folded trimmed filter value, in source order with no limit, each
projected onto the five expected columns in fixed order with absence
substituted past the row's end; and every result row has exactly as many
cells as the returned header list. -/
theorem claim2_filter_rows (sheet : List (List Cell)) (filter_column filter_value : PyStr)
    (fidx : Nat)
    (hok : ExcelService.validate_columns (ExcelService.sheet_column_map sheet)
      filter_column = .ok ())
    (hf : dictLookup (ExcelService.sheet_column_map sheet) filter_column = some fidx) :
    ExcelService.filter_rows sheet filter_column filter_value =
      .ok (colums_head,
        ((sheet.drop (ExcelService.detected_header sheet).1).filter
            (specRowMatches filter_value fidx)).map
          (specProjectRow (ExcelService.keep_indices
            (ExcelService.sheet_column_map sheet)))) ∧
    ∀ r ∈ ((sheet.drop (ExcelService.detected_header sheet).1).filter
            (specRowMatches filter_value fidx)).map
          (specProjectRow (ExcelService.keep_indices
            (ExcelService.sheet_column_map sheet))),
      r.length = colums_head.length := by
  refine ⟨filter_rows_spec sheet filter_column filter_value fidx hok hf, ?_⟩
  intro r hr
  obtain ⟨row, _, hrow⟩ := List.mem_map.mp hr
  rw [← hrow, specProjectRow_length, keep_indices_length]

/-- Witness for claim C2: filtering a concrete sheet on column "Отдел" with
the noisy value " sales " keeps exactly the row whose department cell is
"Sales" (whole-value, case-insensitive match; "Sales2" is excluded), and
pads the matching short row with absent cells up to the header width. -/
theorem claim2_witness :
    ExcelService.filter_rows
      [colums_head.map some,
       [some (pyOfString "Иванов"), some (pyOfString "Инженер"), some (pyOfString "Sales")],
       [some (pyOfString "Петров"), some (pyOfString "ИТ"), some (pyOfString "Sales2"),
        some (pyOfString "2021"), some (pyOfString "200")]]
      (pyOfString "Отдел") (pyOfString " sales ") =
      .ok (colums_head,
        [[some (pyOfString "Иванов"), some (pyOfString "Инженер"),
          some (pyOfString "Sales"), none, none]]) := by
  have h := (claim2_filter_rows
    [colums_head.map some,
     [some (pyOfString "Иванов"), some (pyOfString "Инженер"), some (pyOfString "Sales")],
     [some (pyOfString "Петров"), some (pyOfString "ИТ"), some (pyOfString "Sales2"),
      some (pyOfString "2021"), some (pyOfString "200")]]
    (pyOfString "Отдел") (pyOfString " sales ") 2 (by decide) (by decide)).1
  rw [h]
  decide

/-- Claim C10: when the filter value trims to the empty string, the kept
data rows are exactly those whose filter-column cell normalizes to the
empty string; a row shorter than the filter column's index yields the
absent cell, which normalizes to the empty string and therefore matches. -/
theorem claim10_empty_filter_value (sheet : List (List Cell))
    (filter_column filter_value : PyStr) (fidx : Nat)
    (hok : ExcelService.validate_columns (ExcelService.sheet_column_map sheet)
      filter_column = .ok ())
    (hf : dictLookup (ExcelService.sheet_column_map sheet) filter_column = some fidx)
    (hempty : pyStrip filter_value = []) :
    ExcelService.filter_rows sheet filter_column filter_value =
      .ok (colums_head,
        ((sheet.drop (ExcelService.detected_header sheet).1).filter
            (fun row => (norm_text (ExcelService.cellAt row fidx)).isEmpty)).map
          (specProjectRow (ExcelService.keep_indices
            (ExcelService.sheet_column_map sheet)))) ∧
    norm_text (none : Cell) = [] ∧
    ∀ row : List Cell, row.length ≤ fidx → ExcelService.cellAt row fidx = none := by
  refine ⟨?_, rfl, fun row hrow => List.getD_eq_default row none hrow⟩
  rw [filter_rows_spec sheet filter_column filter_value fidx hok hf]
  have hpred : ∀ row ∈ sheet.drop (ExcelService.detected_header sheet).1,
      specRowMatches filter_value fidx row =
        (norm_text (ExcelService.cellAt row fidx)).isEmpty := by
    intro row _
    rw [Bool.eq_iff_iff]
    simp only [specRowMatches, casefold_text, hempty, pyLower, List.map_nil,
      decide_eq_true_eq, List.map_eq_nil_iff, List.isEmpty_iff]
  rw [List.filter_congr hpred]

/-- Witness for claim C10: with a whitespace-only filter value, the rows
kept are the one with a whitespace-only department cell, the one with an
absent department cell, and the one too short to reach the department
column. -/
theorem claim10_witness :
    ExcelService.filter_rows
      [colums_head.map some,
       [some (pyOfString "Иванов"), some (pyOfString "a"), some (pyOfString "  "),
        some (pyOfString "d"), some (pyOfString "e")],
       [some (pyOfString "Петров"), some (pyOfString "b"), none,
        some (pyOfString "d"), some (pyOfString "e")],
       [some (pyOfString "Сидоров")],
       [some (pyOfString "Анна"), some (pyOfString "c"), some (pyOfString "ИТ"),
        some (pyOfString "d"), some (pyOfString "e")]]
      (pyOfString "Отдел") (pyOfString " ") =
      .ok (colums_head,
        [[some (pyOfString "Иванов"), some (pyOfString "a"), some (pyOfString "  "),
          some (pyOfString "d"), some (pyOfString "e")],
         [some (pyOfString "Петров"), some (pyOfString "b"), none,
          some (pyOfString "d"), some (pyOfString "e")],
         [some (pyOfString "Сидоров"), none, none, none, none]]) := by
  have h := (claim10_empty_filter_value
    [colums_head.map some,
     [some (pyOfString "Иванов"), some (pyOfString "a"), some (pyOfString "  "),
      some (pyOfString "d"), some (pyOfString "e")],
     [some (pyOfString "Петров"), some (pyOfString "b"), none,
      some (pyOfString "d"), some (pyOfString "e")],
     [some (pyOfString "Сидоров")],
     [some (pyOfString "Анна"), some (pyOfString "c"), some (pyOfString "ИТ"),
      some (pyOfString "d"), some (pyOfString "e")]]
    (pyOfString "Отдел") (pyOfString " ") 2 (by decide) (by decide) (by decide)).1
  rw [h]
  decide

/-! Lemmas about the unique-values machinery. -/

theorem column_values_cons (target : Nat) (row : List Cell) (rest : List (List Cell)) :
    ExcelService.column_values target (row :: rest) =
      if target < row.length then
        norm_text (ExcelService.cellAt row target) :: ExcelService.column_values target rest
      else ExcelService.column_values target rest := by
  simp only [ExcelService.column_values, List.filterMap_cons]
  split_ifs with h <;> rfl

theorem unique_loop_length (target limit : Nat) :
    ∀ (rows : List (List Cell)) (seen : List PyStr) (count : Nat),
      count < limit →
      count + (ExcelService.unique_loop target limit seen count rows).length ≤ limit := by
  intro rows
  induction rows with
  | nil =>
    intro seen count h
    simp only [ExcelService.unique_loop, List.length_nil]
    omega
  | cons row rest ih =>
    intro seen count h
    simp only [ExcelService.unique_loop]
    split_ifs with h1 h2 h3 h4
    · exact ih seen count h
    · exact ih seen count h
    · exact ih seen count h
    · simpa using h
    · have := ih (pyLower (norm_text (ExcelService.cellAt row target)) :: seen)
        (count + 1) (by omega)
      simp only [List.length_cons]
      omega

theorem unique_loop_invariant (target limit : Nat) :
    ∀ (rows : List (List Cell)) (seen : List PyStr) (count : Nat),
      (ExcelService.unique_loop target limit seen count rows).Sublist
        (ExcelService.column_values target rows) ∧
      (∀ v ∈ ExcelService.unique_loop target limit seen count rows,
        pyLower v ∉ seen ∧
        (ExcelService.column_values target rows).find?
          (fun w => pyLower w == pyLower v) = some v ∧
        v ≠ [] ∧ pyStrip v = v) ∧
      List.Pairwise (fun a b => pyLower a ≠ pyLower b)
        (ExcelService.unique_loop target limit seen count rows) := by
  intro rows
  induction rows with
  | nil =>
    intro seen count
    exact ⟨List.Sublist.refl _, by simp [ExcelService.unique_loop], by
      simp [ExcelService.unique_loop]⟩
  | cons row rest ih =>
    intro seen count
    by_cases h1 : row.length ≤ target
    · have hcv : ExcelService.column_values target (row :: rest) =
          ExcelService.column_values target rest := by
        rw [column_values_cons, if_neg (by omega)]
      simp only [ExcelService.unique_loop, if_pos h1, hcv]
      exact ih seen count
    · have hlt : target < row.length := by omega
      have hcv : ExcelService.column_values target (row :: rest) =
          norm_text (ExcelService.cellAt row target) ::
            ExcelService.column_values target rest := by
        rw [column_values_cons, if_pos hlt]
      by_cases h2 : (norm_text (ExcelService.cellAt row target)).isEmpty
      · have hnil : norm_text (ExcelService.cellAt row target) = [] :=
          List.isEmpty_iff.mp h2
        simp only [ExcelService.unique_loop, if_neg h1, if_pos h2, hcv]
        obtain ⟨ihs, ihm, ihp⟩ := ih seen count
        refine ⟨ihs.cons _, fun v hv => ?_, ihp⟩
        obtain ⟨hseen, hfind, hne, hstrip⟩ := ihm v hv
        refine ⟨hseen, ?_, hne, hstrip⟩
        have hhead : ¬ ((pyLower (norm_text (ExcelService.cellAt row target)) ==
            pyLower v) = true) := by
          rw [hnil]
          simp only [beq_iff_eq, pyLower, List.map_nil]
          intro hc
          exact hne (List.map_eq_nil_iff.mp hc.symm)
        rw [@List.find?_cons_of_neg _ (fun w => pyLower w == pyLower v) (norm_text (ExcelService.cellAt row target)) (ExcelService.column_values target rest) hhead, hfind]
      · by_cases h3 : pyLower (norm_text (ExcelService.cellAt row target)) ∈ seen
        · simp only [ExcelService.unique_loop, if_neg h1, if_neg h2, if_pos h3, hcv]
          obtain ⟨ihs, ihm, ihp⟩ := ih seen count
          refine ⟨ihs.cons _, fun v hv => ?_, ihp⟩
          obtain ⟨hseen, hfind, hne, hstrip⟩ := ihm v hv
          refine ⟨hseen, ?_, hne, hstrip⟩
          have hhead : ¬ ((pyLower (norm_text (ExcelService.cellAt row target)) ==
              pyLower v) = true) := by
            simp only [beq_iff_eq]
            intro hc
            exact hseen (hc ▸ h3)
          rw [@List.find?_cons_of_neg _ (fun w => pyLower w == pyLower v) (norm_text (ExcelService.cellAt row target)) (ExcelService.column_values target rest) hhead, hfind]
        · have hne0 : norm_text (ExcelService.cellAt row target) ≠ [] := by
            intro hc
            exact h2 (List.isEmpty_iff.mpr hc)
          have hstrip0 : pyStrip (norm_text (ExcelService.cellAt row target)) =
              norm_text (ExcelService.cellAt row target) := pyStrip_norm_text _
          by_cases h4 : limit ≤ count + 1
          · simp only [ExcelService.unique_loop, if_neg h1, if_neg h2, if_neg h3,
              if_pos h4, hcv]
            refine ⟨(List.nil_sublist _).cons₂ _, fun v hv => ?_, by simp⟩
            rw [List.mem_singleton] at hv
            subst hv
            exact ⟨h3, List.find?_cons_of_pos _ (by simp), hne0, hstrip0⟩
          · simp only [ExcelService.unique_loop, if_neg h1, if_neg h2, if_neg h3,
              if_neg h4, hcv]
            obtain ⟨ihs, ihm, ihp⟩ :=
              ih (pyLower (norm_text (ExcelService.cellAt row target)) :: seen) (count + 1)
            have htail : ∀ v ∈ ExcelService.unique_loop target limit
                (pyLower (norm_text (ExcelService.cellAt row target)) :: seen)
                (count + 1) rest,
                pyLower v ≠ pyLower (norm_text (ExcelService.cellAt row target)) := by
              intro v hv
              have := (ihm v hv).1
              intro hc
              exact this (by rw [hc]; exact List.mem_cons_self _ _)
            refine ⟨ihs.cons₂ _, fun v hv => ?_, ?_⟩
            · rcases List.mem_cons.mp hv with hv0 | hvtail
              · subst hv0
                exact ⟨h3, List.find?_cons_of_pos _ (by simp), hne0, hstrip0⟩
              · obtain ⟨hseen, hfind, hnev, hstripv⟩ := ihm v hvtail
                refine ⟨fun hc => hseen (List.mem_cons_of_mem _ hc), ?_, hnev, hstripv⟩
                have hhead : ¬ ((pyLower (norm_text (ExcelService.cellAt row target)) ==
                    pyLower v) = true) := by
                  simp only [beq_iff_eq]
                  intro hc
                  exact htail v hvtail hc.symm
                rw [@List.find?_cons_of_neg _ (fun w => pyLower w == pyLower v) (norm_text (ExcelService.cellAt row target)) (ExcelService.column_values target rest) hhead, hfind]
            · rw [List.pairwise_cons]
              exact ⟨fun v hv => fun hc => htail v hv hc.symm, ihp⟩

/-- Counterexample to claim C3 as stated: with `limit = 0` the scan still
appends the first distinct value before checking the bound, so the result
has one entry, exceeding the limit. -/
theorem claim3_counterexample :
    ExcelService.get_unique_values
      [[some (pyOfString "A")], [some (pyOfString "x")]] (pyOfString "A") 0 =
      .ok [pyOfString "x"] ∧
    ¬ ([pyOfString "x"].length ≤ 0) := ⟨by decide, by decide⟩

/-- Claim C3, amended by the counterexample: for every sheet, column name
present in the detected headers, and POSITIVE limit, `get_unique_values`
returns at most `limit` entries, no two of which are case-insensitive
duplicates; the entries appear in first-seen order (a sublist of the
column's value stream), each entry being the first value of the stream
with its case-folded key (so the first-seen casing is kept), and no entry
normalizes to the empty string. -/
theorem claim3_unique_values (sheet : List (List Cell)) (column_name : PyStr)
    (target limit : Nat)
    (hcol : dictLookup (ExcelService.sheet_column_map sheet) column_name = some target)
    (hlim : 1 ≤ limit) :
    ∃ out, ExcelService.get_unique_values sheet column_name limit = .ok out ∧
      out.length ≤ limit ∧
      List.Pairwise (fun a b => pyLower a ≠ pyLower b) out ∧
      out.Sublist (ExcelService.column_values target
        (sheet.drop (ExcelService.detected_header sheet).1)) ∧
      ∀ v ∈ out,
        (ExcelService.column_values target
          (sheet.drop (ExcelService.detected_header sheet).1)).find?
            (fun w => pyLower w == pyLower v) = some v ∧
        v ≠ [] ∧ pyStrip v = v := by
  refine ⟨ExcelService.unique_loop target limit [] 0
    (sheet.drop (ExcelService.detected_header sheet).1), ?_, ?_, ?_, ?_, ?_⟩
  · simp only [ExcelService.get_unique_values, hcol]
  · simpa using unique_loop_length target limit
      (sheet.drop (ExcelService.detected_header sheet).1) [] 0 (by omega)
  · exact (unique_loop_invariant target limit
      (sheet.drop (ExcelService.detected_header sheet).1) [] 0).2.2
  · exact (unique_loop_invariant target limit
      (sheet.drop (ExcelService.detected_header sheet).1) [] 0).1
  · intro v hv
    have := ((unique_loop_invariant target limit
      (sheet.drop (ExcelService.detected_header sheet).1) [] 0).2.1) v hv
    exact ⟨this.2.1, this.2.2.1, this.2.2.2⟩

/-- Witness for claim C3 (amended) on a concrete sheet: the column stream
is "s", "S", "t", the output keeps "s" (first casing) and "t". -/
theorem claim3_witness :
    ∃ out, ExcelService.get_unique_values
        [[some (pyOfString "A")], [some (pyOfString "s")],
         [some (pyOfString "S")], [some (pyOfString "t")]]
        (pyOfString "A") 500 = .ok out ∧
      out.length ≤ 500 ∧
      List.Pairwise (fun a b => pyLower a ≠ pyLower b) out ∧
      out.Sublist (ExcelService.column_values 0
        (([[some (pyOfString "A")], [some (pyOfString "s")],
           [some (pyOfString "S")], [some (pyOfString "t")]] :
            List (List Cell)).drop
          (ExcelService.detected_header
            [[some (pyOfString "A")], [some (pyOfString "s")],
             [some (pyOfString "S")], [some (pyOfString "t")]]).1)) ∧
      ∀ v ∈ out,
        (ExcelService.column_values 0
          (([[some (pyOfString "A")], [some (pyOfString "s")],
             [some (pyOfString "S")], [some (pyOfString "t")]] :
              List (List Cell)).drop
            (ExcelService.detected_header
              [[some (pyOfString "A")], [some (pyOfString "s")],
               [some (pyOfString "S")], [some (pyOfString "t")]]).1)).find?
              (fun w => pyLower w == pyLower v) = some v ∧
        v ≠ [] ∧ pyStrip v = v :=
  claim3_unique_values
    [[some (pyOfString "A")], [some (pyOfString "s")],
     [some (pyOfString "S")], [some (pyOfString "t")]]
    (pyOfString "A") 0 500 (by decide) (by decide)

/-- Claim C6: `casefold_text` is idempotent on every cell value, and two
strings have the same `casefold_text` image exactly when they are equal up
to case and surrounding whitespace. -/
theorem claim6_casefold_text_idem_and_stable :
    (∀ a : Cell, casefold_text (some (casefold_text a)) = casefold_text a) ∧
    (∀ a b : PyStr,
      casefold_text (some a) = casefold_text (some b) ↔ eqUpToCaseAndWs a b) := by
  constructor
  · intro a
    show pyLower (pyStrip (pyLower (norm_text a))) = pyLower (norm_text a)
    rw [pyStrip_pyLower, pyStrip_norm_text, pyLower_pyLower]
  · intro a b
    show pyLower (pyStrip a) = pyLower (pyStrip b) ↔ _
    exact map_eq_map_iff_forall2 lowerChar _ _

/-- Witness for claim C6 at concrete inputs: folding twice equals folding
once on a padded mixed-case string, and two strings differing only in case
and padding are recognized as equal up to case and whitespace. -/
theorem claim6_witness :
    casefold_text (some (casefold_text (some (pyOfString "  ФиО ")))) =
      casefold_text (some (pyOfString "  ФиО ")) ∧
    eqUpToCaseAndWs (pyOfString " ФИО") (pyOfString "фио  ") :=
  ⟨claim6_casefold_text_idem_and_stable.1 (some (pyOfString "  ФиО ")),
   (claim6_casefold_text_idem_and_stable.2 (pyOfString " ФИО") (pyOfString "фио  ")).mp
     (by decide)⟩

/-- Claim C7: the format dispatcher classifies by the lowercased extension
alone: `.xls` goes to the legacy xlrd backend, `.xlsx` and `.xlsm` to the
openpyxl backend, and anything else raises UnsupportedFormat carrying the
offending extension; the classification is invariant under lowercasing the
input, which is the case-insensitivity of the dispatch. -/
theorem claim7_get_excel_format (suffix : PyStr) :
    (pyLower suffix = pyOfString ".xls" → get_excel_format suffix = .ok .xlrd) ∧
    (pyLower suffix = pyOfString ".xlsx" ∨ pyLower suffix = pyOfString ".xlsm" →
      get_excel_format suffix = .ok .openpyxl) ∧
    (pyLower suffix ≠ pyOfString ".xls" → pyLower suffix ≠ pyOfString ".xlsx" →
      pyLower suffix ≠ pyOfString ".xlsm" →
      get_excel_format suffix = .error (.unsupportedFormat (pyLower suffix))) ∧
    get_excel_format (pyLower suffix) = get_excel_format suffix := by
  refine ⟨fun h => ?_, fun h => ?_, fun h1 h2 h3 => ?_, ?_⟩
  · simp [get_excel_format, h]
  · rcases h with h | h <;> simp [get_excel_format, h] <;> decide
  · simp only [get_excel_format]
    split_ifs with g1 g2
    · exact absurd g1 h1
    · rcases g2 with g | g
      · exact absurd g h2
      · exact absurd g h3
    · rfl
  · simp only [get_excel_format, pyLower_pyLower]

/-- Witness for claim C7 at concrete extensions, exercising all three
classes and the case-insensitivity. -/
theorem claim7_witness :
    get_excel_format (pyOfString ".XLS") = .ok .xlrd ∧
    get_excel_format (pyOfString ".xlsm") = .ok .openpyxl ∧
    get_excel_format (pyOfString ".csv") =
      .error (.unsupportedFormat (pyOfString ".csv")) :=
  ⟨(claim7_get_excel_format (pyOfString ".XLS")).1 (by decide),
   (claim7_get_excel_format (pyOfString ".xlsm")).2.1 (Or.inr (by decide)),
   (claim7_get_excel_format (pyOfString ".csv")).2.2.1 (by decide) (by decide) (by decide)⟩

/-- Claim C8: the output writer rejects any output extension whose
lowercased form is not `.xlsx` with InvalidOutputFormat, producing no
workbook; otherwise it produces a single-sheet workbook titled
"Отфильтрованно" whose rows are the header row followed by the data rows
in their given order. -/
theorem claim8_save_xlsx (output_suffix : PyStr) (headers : List PyStr)
    (rows : List (List Cell)) :
    (pyLower output_suffix ≠ pyOfString ".xlsx" →
      ExcelService.save_xlsx output_suffix headers rows = .error .invalidOutputFormat) ∧
    (pyLower output_suffix = pyOfString ".xlsx" →
      ExcelService.save_xlsx output_suffix headers rows =
        .ok ⟨pyOfString "Отфильтрованно",
             (headers.map (fun h => (some h : Cell))) :: rows⟩) := by
  constructor
  · intro h
    simp [ExcelService.save_xlsx, h]
  · intro h
    simp [ExcelService.save_xlsx, h]

/-- Witness for claim C8: a lowercase `.csv` suffix is rejected and an
uppercase `.XLSX` suffix is accepted with the appended rows. -/
theorem claim8_witness :
    ExcelService.save_xlsx (pyOfString ".csv") colums_head [] =
      .error .invalidOutputFormat ∧
    ExcelService.save_xlsx (pyOfString ".XLSX") colums_head [[none]] =
      .ok ⟨pyOfString "Отфильтрованно",
           [colums_head.map (fun h => (some h : Cell)), [none]]⟩ :=
  ⟨(claim8_save_xlsx (pyOfString ".csv") colums_head []).1 (by decide),
   (claim8_save_xlsx (pyOfString ".XLSX") colums_head [[none]]).2 (by decide)⟩

/-- Claim C9: when the filter column is missing from the column index map,
`validate_columns` raises ColumnNotFound for the filter column even when
required output columns are missing as well — the filter-column check runs
first, so MissingRequiredColumns cannot be observed on such a call. -/
theorem claim9_filter_column_check_first (column_to_index : List (PyStr × Nat))
    (filter_column : PyStr)
    (habs : dictLookup column_to_index filter_column = none)
    (hmiss : ∃ col ∈ colums_head, dictLookup column_to_index col = none) :
    ExcelService.validate_columns column_to_index filter_column =
      .error (.columnNotFound filter_column) ∧
    ∀ names, ExcelService.validate_columns column_to_index filter_column ≠
      .error (.missingRequiredColumns names) := by
  have h1 : ExcelService.validate_columns column_to_index filter_column =
      .error (.columnNotFound filter_column) := by
    simp [ExcelService.validate_columns, habs]
  refine ⟨h1, fun names h => ?_⟩
  rw [h1] at h
  simp at h

/-- Witness for claim C9: the empty column map misses both the filter
column and every required column, and the error observed is ColumnNotFound
for the filter column. -/
theorem claim9_witness :
    ExcelService.validate_columns [] (pyOfString "Город") =
      .error (.columnNotFound (pyOfString "Город")) ∧
    ∀ names, ExcelService.validate_columns [] (pyOfString "Город") ≠
      .error (.missingRequiredColumns names) :=
  claim9_filter_column_check_first [] (pyOfString "Город") (by decide)
    ⟨pyOfString "ФИО", by decide, by decide⟩

/-- Claim C5: `validate_columns` raises ColumnNotFound naming the filter
column when it is absent; when the filter column is present but some
required output column is missing, it raises MissingRequiredColumns naming
exactly the required columns absent from the map; and in `filter_rows` any
validation error is the whole result, produced after header detection and
before any data row contributes. -/
theorem claim5_validate_columns :
    (∀ (m : List (PyStr × Nat)) (fc : PyStr), dictLookup m fc = none →
       ExcelService.validate_columns m fc = .error (.columnNotFound fc)) ∧
    (∀ (m : List (PyStr × Nat)) (fc : PyStr) (idx : Nat),
       dictLookup m fc = some idx →
       colums_head.filter (fun col => (dictLookup m col).isNone) ≠ [] →
       ExcelService.validate_columns m fc =
         .error (.missingRequiredColumns
           (colums_head.filter (fun col => (dictLookup m col).isNone)))) ∧
    (∀ (sheet : List (List Cell)) (fc fv : PyStr) (e : ColError),
       ExcelService.validate_columns (ExcelService.sheet_column_map sheet) fc = .error e →
       ExcelService.filter_rows sheet fc fv = .error e) := by
  refine ⟨fun m fc h => ?_, fun m fc idx h hne => ?_, fun sheet fc fv e h => ?_⟩
  · simp [ExcelService.validate_columns, h]
  · simp [ExcelService.validate_columns, h, List.isEmpty_iff, hne]
  · simp [ExcelService.filter_rows, h]

/-- Witness for claim C5 at concrete inputs: a missing filter column, a
present filter column with missing required columns, and the propagation
of the error through `filter_rows` on a one-row sheet. -/
theorem claim5_witness :
    ExcelService.validate_columns [(pyOfString "ФИО", 0)] (pyOfString "Город") =
      .error (.columnNotFound (pyOfString "Город")) ∧
    ExcelService.validate_columns [(pyOfString "ФИО", 0)] (pyOfString "ФИО") =
      .error (.missingRequiredColumns
        [pyOfString "Должность", pyOfString "Отдел",
         pyOfString "Дата найма", pyOfString "Зарплата"]) ∧
    ExcelService.filter_rows [[some (pyOfString "ФИО")]] (pyOfString "ФИО")
        (pyOfString "x") =
      .error (.missingRequiredColumns
        [pyOfString "Должность", pyOfString "Отдел",
         pyOfString "Дата найма", pyOfString "Зарплата"]) := by
  refine ⟨claim5_validate_columns.1 _ _ (by decide), ?_, ?_⟩
  · have := claim5_validate_columns.2.1 [(pyOfString "ФИО", 0)] (pyOfString "ФИО") 0
      (by decide) (by decide)
    rw [this]
    decide
  · exact claim5_validate_columns.2.2 _ _ _ _ (by decide)
